import Mathlib

/-!
Shallow embedding of the recipe-scaling and recipe-extraction core of the
soustack-app repository.

Numbers are modelled as exact rationals (`ℚ`).  JavaScript's `Math.round`
rounds half toward positive infinity, i.e. `Math.round x = ⌊x + 1/2⌋`.
Where the source can produce the JavaScript specials `NaN` / `Infinity`
(division by zero inside `parseFraction`), values are modelled by the
inductive `JsVal` below.  `Math.pow` is kept abstract: the functions that
use it take an explicit `pow : ℚ → ℚ → ℚ` argument.
-/

namespace Soustack

/-- JavaScript `Math.round`: round half toward positive infinity. -/
def jsRound (q : ℚ) : ℤ := ⌊q + 1/2⌋

/-! ### Fraction formatter (`formatAmount` in `IngredientList.svelte`) -/

/-- The `fractions` table of `formatAmount`, in the source's insertion order
(for non-integer string keys, JavaScript `Object.keys` preserves insertion
order).  The keys `0.333` and `0.667` are the decimal literals of the
source. -/
def fractionGlyphs : List (ℚ × String) :=
  [(1/8, "⅛"), (1/4, "¼"), (333/1000, "⅓"), (3/8, "⅜"), (1/2, "½"),
   (5/8, "⅝"), (667/1000, "⅔"), (3/4, "¾"), (7/8, "⅞")]

/-- `Number.prototype.toFixed(1)` followed by `replace(/\.0$/, '')`,
restricted to the (unreachable) decimal branch of `formatAmount`. -/
def toFixed1Trim (q : ℚ) : String :=
  let n : ℤ := ⌊q * 10 + 1/2⌋
  let i : ℤ := n / 10
  let d : ℤ := n % 10
  if d = 0 then toString i else toString i ++ "." ++ toString d

/-- `formatAmount(amount, unit)` from `IngredientList.svelte` (the `unit`
parameter is unused by the source body). Rounds to the nearest eighth,
renders a glyph from the `fractions` table when the fractional part is
within `0.02` of a table key, otherwise a decimal. -/
def formatAmount (amount : ℚ) (unit : Option String) : String :=
  let rounded : ℚ := (jsRound (amount * 8) : ℚ) / 8
  let whole : ℤ := ⌊rounded⌋
  let frac : ℚ := rounded - whole
  match fractionGlyphs.find? (fun p => |frac - p.1| < 2/100) with
  | some p => if whole = 0 then p.2 else toString whole ++ " " ++ p.2
  | none =>
      if rounded = (whole : ℚ) then toString whole
      else toFixed1Trim rounded

/-! ### Quantity scaler (`scaleIngredient` in `IngredientList.svelte`) -/

/-- The closed union of scaling discriminators of `SoustackIngredient.scaling.type`
(`$lib/db`: `'linear' | 'proportional' | 'fixed' | 'discrete' | 'sublinear'`). -/
inductive ScalingType
  | linear
  | proportional
  | fixed
  | discrete
  | sublinear
deriving DecidableEq, Repr

/-- The `scaling` field of a `SoustackIngredient`. -/
structure Scaling where
  type : ScalingType
  factor : Option ℚ := none
  values : Option (List ℚ) := none
  min : Option ℚ := none
  max : Option ℚ := none
deriving DecidableEq, Repr

/-- The `quantity` field of a `SoustackIngredient`. -/
structure Quantity where
  amount : ℚ
  unit : Option String
deriving DecidableEq, Repr

/-- JavaScript `Array.prototype.reduce` without an initial value, with the
callback `(prev, curr) => Math.abs(curr - target) < Math.abs(prev - target) ? curr : prev`
from the `discrete` branch of `scaleIngredient`.  On an empty array, `reduce`
throws a `TypeError`, modelled as `none`. -/
def jsReduceNearest (target : ℚ) : List ℚ → Option ℚ
  | [] => none
  | x :: xs =>
      some (xs.foldl (fun prev curr => if |curr - target| < |prev - target| then curr else prev) x)

/-- The `switch (scalingType)` of `scaleIngredient` (lines 26-59): the raw
scaled amount before the min/max clamps.  `pow` stands for `Math.pow`.
`none` models the `TypeError` thrown by `reduce` on an empty `values` array
(an empty array is truthy, so the `if (ing.scaling?.values)` guard does not
exclude it). -/
def scaledAmountRaw (pow : ℚ → ℚ → ℚ) (scaling : Option Scaling)
    (baseAmount factor : ℚ) : Option ℚ :=
  match (scaling.map (·.type)).getD ScalingType.linear with
  | ScalingType.fixed => some baseAmount
  | ScalingType.proportional =>
      some (baseAmount * pow factor ((scaling.bind (·.factor)).getD (7/10)))
  | ScalingType.discrete =>
      let r : ℚ := (jsRound (baseAmount * factor) : ℤ)
      match scaling.bind (·.values) with
      | none => some r
      | some vs => jsReduceNearest r vs
  | ScalingType.sublinear =>
      some (baseAmount * pow factor ((scaling.bind (·.factor)).getD (8/10)))
  | ScalingType.linear => some (baseAmount * factor)

/-- `scaledAmount = Math.max(scaledAmount, ing.scaling.min)` when `min` is
configured (line 62-64). -/
def applyMinClamp (scaling : Option Scaling) (x : ℚ) : ℚ :=
  match scaling.bind (·.min) with
  | some m => max x m
  | none => x

/-- `scaledAmount = Math.min(scaledAmount, ing.scaling.max)` when `max` is
configured (line 65-67). -/
def applyMaxClamp (scaling : Option Scaling) (x : ℚ) : ℚ :=
  match scaling.bind (·.max) with
  | some m => min x m
  | none => x

/-- The scaled amount computed by `scaleIngredient` for a structured
ingredient with a quantity (lines 22-67): the policy formula followed by the
`min` clamp and then the `max` clamp. -/
def scaledAmount (pow : ℚ → ℚ → ℚ) (scaling : Option Scaling)
    (baseAmount factor : ℚ) : Option ℚ :=
  (scaledAmountRaw pow scaling baseAmount factor).map
    (fun x => applyMaxClamp scaling (applyMinClamp scaling x))

/-! ### Free-text ingredient scaling (`scaleSimpleIngredient`, `parseFraction`)

String processing is modelled on `List Char` (via `String.data`) so that all
definitions are structurally recursive.  A JavaScript string's `length` and the
string positions of the regexes coincide with code-point counts here because
every character involved is in the Basic Multilingual Plane. -/

/-- JavaScript number values reachable inside `parseFraction` and
`scaleSimpleIngredient`: division by zero produces `Infinity`, `0/0` and
failed parses produce `NaN`. -/
inductive JsVal
  | nan
  | inf
  | neginf
  | fin (q : ℚ)
deriving DecidableEq, Repr

/-- JavaScript `+` on numbers (`NaN` absorbs, infinities saturate). -/
def jsAdd : JsVal → JsVal → JsVal
  | JsVal.nan, _ => JsVal.nan
  | _, JsVal.nan => JsVal.nan
  | JsVal.inf, JsVal.neginf => JsVal.nan
  | JsVal.neginf, JsVal.inf => JsVal.nan
  | JsVal.inf, _ => JsVal.inf
  | _, JsVal.inf => JsVal.inf
  | JsVal.neginf, _ => JsVal.neginf
  | _, JsVal.neginf => JsVal.neginf
  | JsVal.fin a, JsVal.fin b => JsVal.fin (a + b)

/-- JavaScript `/` on numbers: `x/0` is `±Infinity` for `x ≠ 0` and `NaN`
for `x = 0`. -/
def jsDiv : JsVal → JsVal → JsVal
  | JsVal.nan, _ => JsVal.nan
  | _, JsVal.nan => JsVal.nan
  | JsVal.fin a, JsVal.fin b =>
      if b = 0 then
        if a = 0 then JsVal.nan else if 0 < a then JsVal.inf else JsVal.neginf
      else JsVal.fin (a / b)
  | JsVal.fin _, _ => JsVal.fin 0
  | JsVal.inf, JsVal.fin b => if b < 0 then JsVal.neginf else JsVal.inf
  | JsVal.neginf, JsVal.fin b => if b < 0 then JsVal.inf else JsVal.neginf
  | _, _ => JsVal.nan

/-- JavaScript `*` of a number value with a finite factor. -/
def jsMulFactor : JsVal → ℚ → JsVal
  | JsVal.nan, _ => JsVal.nan
  | JsVal.inf, f => if f = 0 then JsVal.nan else if 0 < f then JsVal.inf else JsVal.neginf
  | JsVal.neginf, f => if f = 0 then JsVal.nan else if 0 < f then JsVal.neginf else JsVal.inf
  | JsVal.fin q, f => JsVal.fin (q * f)

/-- The ASCII part of the JavaScript regex class `\s` (all whitespace that
occurs in the strings this code handles). -/
def isJsSpace (c : Char) : Bool := c = ' ' || c = '\t' || c = '\n' || c = '\r'

/-- The regex class `[\d\/\s.]` of `scaleSimpleIngredient`'s leading-number
match. -/
def isLeadChar (c : Char) : Bool := c.isDigit || c = '/' || c = '.' || isJsSpace c

/-- JavaScript line terminators: the regex `.` matches everything else. -/
def isLineTerm (c : Char) : Bool := c = '\n' || c = '\r'

/-- String from a character list. -/
def ofChars (l : List Char) : String := ⟨l⟩

/-- `String.prototype.trim`. -/
def jsTrim (s : String) : String :=
  ofChars (((s.data.dropWhile isJsSpace).reverse.dropWhile isJsSpace).reverse)

/-- Split a character list at every character satisfying `p` (JavaScript
`split` with a single-character pattern: empty pieces are kept). -/
def splitChars (p : Char → Bool) : List Char → List (List Char)
  | [] => [[]]
  | c :: cs =>
      if p c then [] :: splitChars p cs
      else
        match splitChars p cs with
        | t :: ts => (c :: t) :: ts
        | [] => [[c]]

/-- `str.trim().split(/\s+/)`: on the empty string JavaScript `split`
returns `[""]`; on a trimmed non-empty string, splitting on runs of
whitespace equals splitting at every whitespace character and dropping the
empty pieces. -/
def jsSplitWs (s : String) : List String :=
  let t := jsTrim s
  if t.data.isEmpty then [""]
  else ((splitChars isJsSpace t.data).filter (fun w => ¬ w.isEmpty)).map ofChars

/-- Numeric value of a digit list (most significant first). -/
def digitsVal (l : List Char) : ℕ :=
  l.foldl (fun acc c => acc * 10 + (c.toNat - 48)) 0

/-- JavaScript `Number(str)` restricted to the strings that can reach it
here (digits and dots only, after splitting a `parseFraction` token on
`/`): `Number("")` is `0`, a decimal literal with at least one digit and at
most one dot is its value, everything else is `NaN`. -/
def jsNumber (s : String) : JsVal :=
  match splitChars (· = '.') s.data with
  | [ds] =>
      if ds.isEmpty then JsVal.fin 0
      else if ds.all Char.isDigit then JsVal.fin (digitsVal ds) else JsVal.nan
  | [as, bs] =>
      if (as.all Char.isDigit && bs.all Char.isDigit) && !(as.isEmpty && bs.isEmpty) then
        JsVal.fin ((digitsVal as : ℚ) + (digitsVal bs : ℚ) / (10 : ℚ) ^ bs.length)
      else JsVal.nan
  | _ => JsVal.nan

/-- JavaScript `parseFloat(str)` restricted to digit/dot strings: the value
of the longest prefix of the form `digits [. digits]`, `NaN` when that
prefix has no digit. -/
def jsParseFloat (s : String) : JsVal :=
  let d1 := s.data.takeWhile Char.isDigit
  let rest := s.data.dropWhile Char.isDigit
  match rest with
  | '.' :: r2 =>
      let d2 := r2.takeWhile Char.isDigit
      if d1.isEmpty && d2.isEmpty then JsVal.nan
      else JsVal.fin ((digitsVal d1 : ℚ) + (digitsVal d2 : ℚ) / (10 : ℚ) ^ d2.length)
  | _ => if d1.isEmpty then JsVal.nan else JsVal.fin (digitsVal d1)

/-- `parseFraction` from `IngredientList.svelte` (lines 113-127): split the
trimmed string on whitespace and sum the tokens, a token containing `/`
contributing `Number(num) / Number(denom)` of its first two `/`-separated
pieces, any other token contributing `parseFloat(token)`. -/
def parseFraction (str : String) : JsVal :=
  (jsSplitWs str).foldl
    (fun total part =>
      if part.data.contains '/' then
        let pieces := splitChars (· = '/') part.data
        jsAdd total (jsDiv (jsNumber (ofChars (pieces.getD 0 [])))
                           (jsNumber (ofChars (pieces.getD 1 []))))
      else jsAdd total (jsParseFloat part))
    (JsVal.fin 0)

/-- `formatAmount` extended to the JavaScript specials, matching what the
source produces on them: for `Infinity` the integer branch prints
`"Infinity"`, for `-Infinity` it prints `"-Infinity"`, and for `NaN` the
`toFixed` branch prints `"NaN"`. -/
def formatAmountJs : JsVal → String
  | JsVal.fin q => formatAmount q none
  | JsVal.inf => "Infinity"
  | JsVal.neginf => "-Infinity"
  | JsVal.nan => "NaN"

/-- Result record of `scaleIngredient`/`scaleSimpleIngredient`. -/
structure ScaleResult where
  display : String
  scaled : Bool
deriving DecidableEq, Repr

/-- The regex match `ing.match(/^([\d\/\s.]+)\s*(.*)/)`: the first group
greedily takes the longest prefix of class characters (it must be
non-empty), after which `\s*` can only match the empty string (whitespace
belongs to the class), and `(.*)` takes the remainder up to the first line
terminator. -/
def leadingSplit (s : String) : Option (String × String) :=
  let pre := s.data.takeWhile isLeadChar
  if pre.isEmpty then none
  else some (ofChars pre,
             ofChars ((s.data.dropWhile isLeadChar).takeWhile (fun c => !(isLineTerm c))))

/-- `scaleSimpleIngredient` from `IngredientList.svelte` (lines 82-110). -/
def scaleSimpleIngredient (ing : String) (factor : ℚ) : ScaleResult :=
  if factor = 1 then { display := ing, scaled := false }
  else
    match leadingSplit ing with
    | none => { display := ing, scaled := false }
    | some (numPart, rest) =>
        match parseFraction numPart with
        | JsVal.nan => { display := ing, scaled := false }
        | v =>
            { display := formatAmountJs (jsMulFactor v factor) ++ " " ++ rest,
              scaled := true }

/-! ### Recipe extraction (`src/routes/api/scrape/+server.ts`, HTML branch)

The HTML branch of the `POST` handler (lines 34-114) is modelled over the
data the code inspects: the parsed contents of the
`script[type="application/ld+json"]` blocks in document order (`none` for a
block with empty content or whose `JSON.parse` throws), and the first
`[itemscope][itemtype*="schema.org/Recipe"]` element when one exists.
JSON values are the inductive `Json`; object field lists are the key-value
pairs produced by `JSON.parse` (keys unique, last duplicate kept by the
parser). -/

/-- A parsed JSON value. -/
inductive Json
  | null
  | bool (b : Bool)
  | num (q : ℚ)
  | str (s : String)
  | arr (elems : List Json)
  | obj (fields : List (String × Json))

/-- JavaScript property read `j[k]`: reading a property of `null` throws a
`TypeError` (`Except.error`), an object yields the field or `undefined`
(`none`), and any other value yields `undefined`. -/
def getProp : Json → String → Except Unit (Option Json)
  | Json.null, _ => Except.error ()
  | Json.obj fields, k => Except.ok ((fields.find? (fun f => f.1 == k)).map (·.2))
  | _, _ => Except.ok none

/-- The strict equality `x === 'Recipe'` of a JSON value with the string
literal `'Recipe'` (also the element test of `includes('Recipe')`). -/
def isRecipeStr : Json → Bool
  | Json.str s => s == "Recipe"
  | _ => false

/-- The type test `item['@type'] === 'Recipe' ||
(Array.isArray(item['@type']) && item['@type'].includes('Recipe'))`;
it throws when `item` is `null`. -/
def isRecipeTyped (j : Json) : Except Unit Bool := do
  let t ← getProp j "@type"
  match t with
  | some (Json.str s) => pure (s == "Recipe")
  | some (Json.arr xs) => pure (xs.any isRecipeStr)
  | _ => pure false

/-- The inner `for (const item of data)` loop: the first element passing the
type test is returned and iteration stops; a thrown `TypeError` aborts the
whole block. -/
def findRecipeInList : List Json → Except Unit (Option Json)
  | [] => Except.ok none
  | item :: rest => do
      let b ← isRecipeTyped item
      if b then pure (some item) else findRecipeInList rest

/-- Processing of one successfully parsed block payload inside the `try`:
an array is scanned in order, any other payload is accepted directly when
it passes the type test. -/
def scanBlock (data : Json) : Except Unit (Option Json) :=
  match data with
  | Json.arr items => findRecipeInList items
  | _ => do
      let b ← isRecipeTyped data
      pure (if b then some data else none)

/-- The `scripts.each` loop (lines 47-66): blocks are visited in document
order; a block with no content or failing `JSON.parse` (`none`), or one
whose processing throws (the `catch` swallows the error), is skipped; the
first block yielding a Recipe stops the iteration (`return false`). -/
def extractJsonLd : List (Option Json) → Option Json
  | [] => none
  | none :: rest => extractJsonLd rest
  | some data :: rest =>
      match scanBlock data with
      | Except.error _ => extractJsonLd rest
      | Except.ok (some r) => some r
      | Except.ok none => extractJsonLd rest

/-- A cheerio node as the microdata extractor reads it: its `content`,
`href` and `src` attributes (absent = `undefined`), its text content, and
the text of its first `[itemprop="text"]` descendant (`""` when there is
none, as cheerio's `.text()` of an empty selection). -/
structure MicroNode where
  content : Option String
  href : Option String
  src : Option String
  text : String
  innerTextProp : String
deriving DecidableEq, Repr

/-- The first `[itemscope][itemtype*="schema.org/Recipe"]` element: for each
`itemprop` name the first matching descendant, and the `recipeIngredient` /
`recipeInstructions` descendants in document order. -/
structure MicroElem where
  findProp : String → Option MicroNode
  ingredientNodes : List MicroNode
  instructionNodes : List MicroNode

/-- JavaScript `a || b` where `a` is a possibly-undefined string: the empty
string is falsy. -/
def jsOrStr : Option String → String → String
  | some s, d => if s = "" then d else s
  | none, d => d

/-- The `simpleProps` array of the microdata extractor (line 78). -/
def simplePropNames : List String :=
  ["name", "description", "image", "author", "prepTime", "cookTime", "totalTime",
   "recipeYield", "recipeCategory", "recipeCuisine"]

/-- `node.attr('content') || node.attr('href') || node.attr('src') ||
node.text().trim()` (line 82). -/
def propValue (n : MicroNode) : String :=
  jsOrStr n.content (jsOrStr n.href (jsOrStr n.src (jsTrim n.text)))

/-- The object the microdata extractor builds (lines 77-98). -/
structure MicroRecipe where
  props : List (String × String)
  recipeIngredient : List String
  recipeInstructions : List String
deriving DecidableEq, Repr

/-- Microdata extraction from the recipe element: assign each present simple
property, collect ingredient texts (`content` attribute, else node text;
pushed trimmed when truthy) and instruction texts (`content`, else nested
`[itemprop="text"]` text, else node text). -/
def buildMicrodata (el : MicroElem) : MicroRecipe :=
  { props := simplePropNames.filterMap (fun p => (el.findProp p).map (fun n => (p, propValue n)))
    recipeIngredient := el.ingredientNodes.filterMap (fun n =>
      let text := jsOrStr n.content n.text
      if text = "" then none else some (jsTrim text))
    recipeInstructions := el.instructionNodes.filterMap (fun n =>
      let text := jsOrStr n.content (jsOrStr (some n.innerTextProp) n.text)
      if text = "" then none else some (jsTrim text)) }

/-- The acceptance test `if (microdataRecipe.name || ingredients.length)`
(line 100): the candidate is kept only when it has a truthy name or at
least one ingredient. -/
def microAccepted (m : MicroRecipe) : Bool :=
  (match (m.props.find? (fun f => f.1 = "name")).map (·.2) with
   | some s => s ≠ ""
   | none => false) || !m.recipeIngredient.isEmpty

/-- Outcome of the HTML extraction region (lines 42-114): a JSON-LD
candidate, a microdata candidate, or the explicit not-found result (the
`400` JSON error response, not an exception). -/
inductive ScrapeOutcome
  | foundJsonLd (r : Json)
  | foundMicrodata (m : MicroRecipe)
  | notFound

/-- The extraction coordinator: JSON-LD first; microdata is consulted only
when JSON-LD yields nothing and kept only when accepted; otherwise the
explicit not-found value. -/
def extractRecipe (blocks : List (Option Json)) (micro : Option MicroElem) : ScrapeOutcome :=
  match extractJsonLd blocks with
  | some r => ScrapeOutcome.foundJsonLd r
  | none =>
      match micro with
      | none => ScrapeOutcome.notFound
      | some el =>
          let m := buildMicrodata el
          if microAccepted m then ScrapeOutcome.foundMicrodata m else ScrapeOutcome.notFound

/-! ### Recipe import and tag sanitization (`db/recipes.ts`, `importRecipe`) -/

/-- JavaScript regex `\w`: ASCII letters, digits and underscore. -/
def isWordChar (c : Char) : Bool := (c.isAlpha && c.toNat < 128) || c.isDigit || c = '_'

/-- `String.prototype.toLowerCase` (character-wise; all strings involved
here are ASCII). -/
def jsToLower (s : String) : String := ofChars (s.data.map Char.toLower)

/-- The separator class of `split(/[,\s]+/)`. -/
def isCommaOrSpace (c : Char) : Bool := c = ',' || isJsSpace c

/-- `split(/[,\s]+/)`, modelled by splitting at every separator character:
this differs from run-splitting only by extra empty pieces, and every
consumer below discards empty pieces through its truthiness guard. -/
def splitCommaWs (s : String) : List String := (splitChars isCommaOrSpace s.data).map ofChars

/-- `replace(/[^\w]/g, '')`. -/
def stripNonWord (s : String) : String := ofChars (s.data.filter isWordChar)

/-- The token contribution of one free-text ingredient string (lines
940-946 of `db/recipes.ts`): lowercase, split on commas/whitespace, keep
each cleaned part that is non-empty, longer than two characters and not
purely numeric (`/^\d+$/`). -/
def addStringTokens (acc : List String) (s : String) : List String :=
  (splitCommaWs (jsToLower s)).foldl
    (fun acc part =>
      let cleaned := stripNonWord part
      if cleaned ≠ "" && decide (cleaned.length > 2) && !cleaned.data.all Char.isDigit then
        acc ++ [cleaned]
      else acc)
    acc

/-- An entry of `recipe.ingredients` as `importRecipe` inspects it: a plain
string, or an object whose `name` / `item` properties may be present. -/
inductive IngEntry
  | plain (s : String)
  | obj (name : Option String) (item : Option String)
deriving DecidableEq, Repr

/-- The derived ingredient-name token set (lines 936-959): a string
ingredient contributes its cleaned parts, an object with a `name` property
contributes its cleaned lowercased name when longer than two characters
(with no numeric test on this path), an object with only an `item`
property contributes like a string ingredient.  Membership below is what
matters, so the JavaScript `Set` is modelled as the accumulation list. -/
def deriveIngredientNames (ings : List IngEntry) : List String :=
  ings.foldl
    (fun acc ing =>
      match ing with
      | IngEntry.plain s => addStringTokens acc s
      | IngEntry.obj (some name) _ =>
          let n := stripNonWord (jsToLower name)
          if n ≠ "" && decide (n.length > 2) then acc ++ [n] else acc
      | IngEntry.obj none (some item) => addStringTokens acc item
      | IngEntry.obj none none => acc)
    []

/-- The normalization applied to a tag before the membership test (line
976): `tag.toLowerCase().trim().replace(/[^\w]/g, '')`. -/
def normTag (tag : String) : String := stripNonWord (jsTrim (jsToLower tag))

/-- The tag-cleanup filter of `importRecipe` (lines 975-982): keep a tag iff
its normalized form is not a derived ingredient token and is longer than
two characters; when nothing survives, the `tags` property is deleted
(`none`). -/
def sanitizeTags (tags : List String) (ings : List IngEntry) : Option (List String) :=
  let names := deriveIngredientNames ings
  let kept := tags.filter (fun tag =>
    let tl := normTag tag
    !decide (tl ∈ names) && decide (tl.length > 2))
  if kept.isEmpty then none else some kept

/-- The fields of the parsed recipe payload that `importRecipe` reads.
`none` models an absent (or non-array, for the list-valued fields)
property; a present `name` may still be the falsy empty string. -/
structure ImportRecipe where
  name : Option String := none
  ingredients : Option (List IngEntry) := none
  tags : Option (List String) := none
deriving DecidableEq, Repr

/-- The validation guard `if (!recipe.name || !recipe.ingredients)` (line
909): an empty ingredient *array* is truthy, so it passes. -/
def importValidationOk (r : ImportRecipe) : Bool :=
  (match r.name with
   | some s => s ≠ ""
   | none => false) && r.ingredients.isSome

/-- `importRecipe` from `db/recipes.ts` (lines 887-1000), up to the
persistence call: reject when name or ingredients is missing, otherwise
clean the tags (when both `tags` and `ingredients` are arrays) and hand the
recipe on. -/
def importRecipe (r : ImportRecipe) : Except String ImportRecipe :=
  if importValidationOk r then
    Except.ok { r with tags :=
      match r.tags, r.ingredients with
      | some ts, some ings => sanitizeTags ts ings
      | _, _ => r.tags }
  else Except.error "Invalid recipe: missing name or ingredients"

/-- Clamping as §4.2 of the spec words it: apply the `min` clamp (lower
bound) first, then the `max` clamp (upper bound), each only when
configured. -/
def clampSpec (lo hi : Option ℚ) (x : ℚ) : ℚ :=
  let afterMin : ℚ :=
    match lo with
    | some l => max x l
    | none => x
  match hi with
  | some h => min afterMin h
  | none => afterMin

/-- The scaled amount as the (amended) claim words it: fixed — base
unchanged; linear or missing policy — base × factor; proportional — base ×
pow(factor, exponent) with exponent defaulting to 0.7; sublinear —
likewise with default 0.8; discrete — round(base × factor), snapped to the
closest member of the permitted-value set when one is configured (the
snap failing on an empty set); then the clamps. -/
def specScaledAmount (pow : ℚ → ℚ → ℚ) (sc : Option Scaling)
    (base factor : ℚ) : Option ℚ :=
  match sc with
  | none => some (base * factor)
  | some s =>
      let raw : Option ℚ :=
        match s.type with
        | ScalingType.fixed => some base
        | ScalingType.linear => some (base * factor)
        | ScalingType.proportional => some (base * pow factor (s.factor.getD (7/10)))
        | ScalingType.sublinear => some (base * pow factor (s.factor.getD (8/10)))
        | ScalingType.discrete =>
            match s.values with
            | none => some ((jsRound (base * factor) : ℤ) : ℚ)
            | some vs => jsReduceNearest ((jsRound (base * factor) : ℤ) : ℚ) vs
      raw.map (clampSpec s.min s.max)

/-- The fold of the `reduce` callback of the discrete branch. -/
def nearestFold (t x : ℚ) (xs : List ℚ) : ℚ :=
  xs.foldl (fun prev curr => if |curr - t| < |prev - t| then curr else prev) x

/-! ### Claim C1: fraction-formatter examples and idempotence -/

lemma jsRound_intCast_div_eight (n : ℤ) : jsRound ((n : ℚ) / 8 * 8) = n := by
  have h8 : ((n : ℚ) / 8 * 8) = (n : ℚ) := by field_simp
  rw [h8]
  unfold jsRound
  rw [Int.floor_int_add]
  norm_num

/-- C1 (amended): `formatAmount` meets the spec's examples for `0.5` and
`1.5`, but because the amount is first snapped to the nearest eighth,
`0.33` renders as `"⅜"` and `2.1` as `"2 ⅛"`; and re-formatting the
eighth-rounded value that the output denotes reproduces the same string
(idempotence). -/
theorem formatAmount_correct :
    formatAmount (1/2) none = "½" ∧ formatAmount (3/2) none = "1 ½" ∧
    formatAmount (33/100) none = "⅜" ∧ formatAmount (21/10) none = "2 ⅛" ∧
    ∀ q : ℚ, formatAmount ((jsRound (q * 8) : ℚ) / 8) none = formatAmount q none := by
  refine ⟨by with_unfolding_all decide, by with_unfolding_all decide,
    by with_unfolding_all decide, by with_unfolding_all decide, ?_⟩
  intro q
  unfold formatAmount
  rw [jsRound_intCast_div_eight]

/-- C1 counterexample: the spec's examples `format(0.33) = "⅓"` and
`format(2.1) = "2.1"` are false of the code. -/
theorem formatAmount_claim_counterexample :
    formatAmount (33/100) none ≠ "⅓" ∧ formatAmount (21/10) none ≠ "2.1" := by
  with_unfolding_all decide

/-! ### Claim C2: identity at factor 1 -/

/-- C2 (amended): scaling by factor 1 returns the base amount for every
policy whose effective type is not `discrete` and which configures no
`min`/`max` clamp, for any `Math.pow` with `pow 1 e = 1`. -/
theorem scale_identity_at_one (pow : ℚ → ℚ → ℚ) (hpow : ∀ e, pow 1 e = 1)
    (sc : Option Scaling)
    (hmin : sc.bind (·.min) = none) (hmax : sc.bind (·.max) = none)
    (hty : (sc.map (·.type)).getD ScalingType.linear ≠ ScalingType.discrete)
    (x : ℚ) : scaledAmount pow sc x 1 = some x := by
  rcases htype : (sc.map (·.type)).getD ScalingType.linear with _ | _ | _ | _ | _ <;>
    simp only [scaledAmount, scaledAmountRaw, applyMinClamp, applyMaxClamp,
      htype, hmin, hmax, hpow, Option.map_some', mul_one, Option.map_none'] <;>
    first
      | rfl
      | exact absurd htype hty

/-- C2 counterexample: at factor 1 a `discrete` policy rounds a non-integer
base (`2.5 ↦ 3`), and a configured `min` clamp rewrites the result even for
a `linear` policy (`5` with `min = 10` becomes `10`). -/
theorem scale_identity_claim_counterexample :
    scaledAmount (fun _ _ => 1) (some { type := ScalingType.discrete }) (5/2) 1 = some 3 ∧
    ¬ ((3 : ℚ) = 5/2) ∧
    scaledAmount (fun _ _ => 1)
      (some { type := ScalingType.linear, min := some 10 }) 5 1 = some 10 ∧
    ¬ ((10 : ℚ) = 5) := by
  with_unfolding_all decide

/-- C2 witness: the identity theorem applied to a `proportional` policy at
base `7/3`. -/
theorem scale_identity_at_one_witness :
    scaledAmount (fun _ _ => (1 : ℚ)) (some { type := ScalingType.proportional }) (7/3) 1 =
      some (7/3) :=
  scale_identity_at_one (fun _ _ => 1) (fun _ => rfl)
    (some { type := ScalingType.proportional }) rfl rfl (by decide) (7/3)

/-! ### Claim C3: the per-policy scaling formulas and clamp order -/

/-- C3 (amended): the scaled amount of `scaleIngredient` equals the spec's
per-policy formula — with the discrete case additionally snapped to the
permitted-value set when one is configured — followed by the `min` clamp
and then the `max` clamp. -/
theorem scaledAmount_matches_spec_formula (pow : ℚ → ℚ → ℚ) (sc : Option Scaling)
    (base factor : ℚ) :
    scaledAmount pow sc base factor = specScaledAmount pow sc base factor := by
  cases sc with
  | none => rfl
  | some s =>
      rcases s with ⟨ty, f, vs, mn, mx⟩
      cases ty <;> cases vs <;> rfl

/-- C3 counterexample: with a permitted-value set the scaled amount is not
`round(base × factor)`: `base 4, factor 1, values [2, 6]` yields `2`, while
`round(4 × 1) = 4`. -/
theorem scaledAmount_claim_counterexample :
    scaledAmount (fun _ _ => 1)
      (some { type := ScalingType.discrete, values := some [2, 6] }) 4 1 = some 2 ∧
    ((jsRound ((4 : ℚ) * 1) : ℤ) : ℚ) = 4 ∧ ¬ ((2 : ℚ) = 4) := by
  with_unfolding_all decide

/-! ### Claim C4: free-text ingredient scaling -/

/-- C4: free-text scaling returns the string unchanged (`scaled = false`) at
factor 1 and when no leading numeric/fraction prefix matches; a `NaN` from
`parseFraction` (a malformed fraction token) also returns the string
unchanged rather than throwing; on a successful finite parse the summed
leading quantity is multiplied by the factor, formatted, and spliced in
front of the remainder; and `"2 cups flour"` at factor 2 becomes
`"4 cups flour"`. -/
theorem scaleSimpleIngredient_correct :
    (∀ s : String, scaleSimpleIngredient s 1 = { display := s, scaled := false }) ∧
    (∀ (s : String) (f : ℚ), leadingSplit s = none →
      scaleSimpleIngredient s f = { display := s, scaled := false }) ∧
    (∀ (s : String) (f : ℚ) (numPart rest : String), f ≠ 1 →
      leadingSplit s = some (numPart, rest) → parseFraction numPart = JsVal.nan →
      scaleSimpleIngredient s f = { display := s, scaled := false }) ∧
    (∀ (s : String) (f : ℚ) (numPart rest : String) (q : ℚ), f ≠ 1 →
      leadingSplit s = some (numPart, rest) → parseFraction numPart = JsVal.fin q →
      scaleSimpleIngredient s f =
        { display := formatAmount (q * f) none ++ " " ++ rest, scaled := true }) ∧
    scaleSimpleIngredient "2 cups flour" 2 = { display := "4 cups flour", scaled := true } ∧
    scaleSimpleIngredient "a pinch of salt" 2 =
      { display := "a pinch of salt", scaled := false } := by
  refine ⟨?_, ?_, ?_, ?_, by with_unfolding_all decide, by with_unfolding_all decide⟩
  · intro s
    simp [scaleSimpleIngredient]
  · intro s f h
    by_cases hf : f = 1
    · subst hf; simp [scaleSimpleIngredient]
    · simp [scaleSimpleIngredient, hf, h]
  · intro s f numPart rest hf hsplit hparse
    simp [scaleSimpleIngredient, hf, hsplit, hparse]
  · intro s f numPart rest q hf hsplit hparse
    simp [scaleSimpleIngredient, hf, hsplit, hparse, formatAmountJs, jsMulFactor]

/-- C4 witness: the malformed-token clause applied to `"/ cups flour"` at
factor 2 (the token `"/"` parses as `0/0 = NaN`). -/
theorem scaleSimpleIngredient_correct_witness :
    scaleSimpleIngredient "/ cups flour" 2 = { display := "/ cups flour", scaled := false } :=
  scaleSimpleIngredient_correct.2.2.1 "/ cups flour" 2 "/ " "cups flour"
    (by norm_num) (by with_unfolding_all decide) (by with_unfolding_all decide)

/-! ### Claim C9: discrete snapping to the permitted-value set -/

lemma nearestFold_cons (t x c : ℚ) (cs : List ℚ) :
    nearestFold t x (c :: cs) = nearestFold t (if |c - t| < |x - t| then c else x) cs := rfl

/-- The fold result is the earliest member of `x :: xs` at minimal distance
from `t`: everything strictly before it in the list is strictly farther,
and nothing in the list is closer. -/
lemma nearestFold_firstMin (t : ℚ) :
    ∀ (xs : List ℚ) (x : ℚ),
      ∃ p suf, x :: xs = p ++ nearestFold t x xs :: suf ∧
        (∀ y ∈ p, |nearestFold t x xs - t| < |y - t|) ∧
        ∀ y ∈ x :: xs, |nearestFold t x xs - t| ≤ |y - t| := by
  intro xs
  induction xs with
  | nil =>
      intro x
      exact ⟨[], [], rfl, by simp, by simp [nearestFold]⟩
  | cons c cs ih =>
      intro x
      by_cases h : |c - t| < |x - t|
      · obtain ⟨p, suf, hsplit, hstrict, hmin⟩ := ih c
        have hm : nearestFold t x (c :: cs) = nearestFold t c cs := by
          rw [nearestFold_cons, if_pos h]
        refine ⟨x :: p, suf, ?_, ?_, ?_⟩
        · rw [hm, List.cons_append, ← hsplit]
        · intro y hy
          rw [hm]
          rcases List.mem_cons.1 hy with rfl | hy'
          · exact lt_of_le_of_lt (hmin c (by simp)) h
          · exact hstrict y hy'
        · intro y hy
          rw [hm]
          rcases List.mem_cons.1 hy with rfl | hy'
          · exact le_of_lt (lt_of_le_of_lt (hmin c (by simp)) h)
          · exact hmin y hy'
      · obtain ⟨p, suf, hsplit, hstrict, hmin⟩ := ih x
        have hm : nearestFold t x (c :: cs) = nearestFold t x cs := by
          rw [nearestFold_cons, if_neg h]
        have hxc : |x - t| ≤ |c - t| := not_lt.1 h
        cases p with
        | nil =>
            rw [List.nil_append] at hsplit
            injection hsplit with h1 h2
            refine ⟨[], c :: cs, ?_, by simp, ?_⟩
            · rw [hm, ← h1, List.nil_append]
            · intro y hy
              rw [hm, ← h1]
              rcases List.mem_cons.1 hy with rfl | hy'
              · exact le_refl _
              · rcases List.mem_cons.1 hy' with rfl | hy''
                · exact hxc
                · have := hmin y (List.mem_cons_of_mem x hy'')
                  rwa [← h1] at this
        | cons a p2 =>
            rw [List.cons_append] at hsplit
            injection hsplit with h1 h2
            refine ⟨x :: c :: p2, suf, ?_, ?_, ?_⟩
            · rw [hm]
              simp only [List.cons_append]
              rw [← h2]
            · intro y hy
              rw [hm]
              rcases List.mem_cons.1 hy with rfl | hy'
              · exact h1 ▸ hstrict a (List.mem_cons_self a p2)
              · rcases List.mem_cons.1 hy' with rfl | hy''
                · exact lt_of_lt_of_le (h1 ▸ hstrict a (List.mem_cons_self a p2)) hxc
                · exact hstrict y (List.mem_cons_of_mem a hy'')
            · intro y hy
              rw [hm]
              rcases List.mem_cons.1 hy with rfl | hy'
              · exact hmin y (List.mem_cons_self y cs)
              · rcases List.mem_cons.1 hy' with rfl | hy''
                · exact le_trans (hmin x (List.mem_cons_self x cs)) hxc
                · exact hmin y (List.mem_cons_of_mem x hy'')

/-- C9: for a discrete policy with a non-empty permitted-value set and no
clamps, the scaled amount is the member of the set at minimal absolute
distance from `round(base × factor)`, and on ties the member occurring
earlier in the list is chosen (the reduce keeps the earlier element under
its strict-less-than comparison). -/
theorem discrete_values_snap_correct (pow : ℚ → ℚ → ℚ) (f : Option ℚ)
    (vs : List ℚ) (hne : vs ≠ []) (base factor : ℚ) :
    ∃ m, scaledAmount pow
        (some { type := ScalingType.discrete, factor := f, values := some vs }) base factor
          = some m ∧
      m ∈ vs ∧
      (∀ y ∈ vs, |m - ((jsRound (base * factor) : ℤ) : ℚ)|
          ≤ |y - ((jsRound (base * factor) : ℤ) : ℚ)|) ∧
      ∃ p suf, vs = p ++ m :: suf ∧
        ∀ y ∈ p, |m - ((jsRound (base * factor) : ℤ) : ℚ)|
            < |y - ((jsRound (base * factor) : ℤ) : ℚ)| := by
  rcases vs with _ | ⟨x, xs⟩
  · exact absurd rfl hne
  · obtain ⟨p, suf, hsplit, hstrict, hmin⟩ :=
      nearestFold_firstMin ((jsRound (base * factor) : ℤ) : ℚ) xs x
    refine ⟨nearestFold ((jsRound (base * factor) : ℤ) : ℚ) x xs, rfl, ?_, ?_, p, suf, hsplit, hstrict⟩
    · rw [hsplit]
      exact List.mem_append_right p (List.mem_cons_self _ suf)
    · exact hmin

/-- C9 witness: the snap theorem applied to the spec's example
`scale(4, discrete-with-values [2,4,6,8], 1.3)`: the result is a member of
the permitted set. -/
theorem discrete_values_snap_witness :
    ∃ m, scaledAmount (fun _ _ => (1 : ℚ))
        (some { type := ScalingType.discrete, values := some [2, 4, 6, 8] }) 4 (13/10)
          = some m ∧ m ∈ [(2 : ℚ), 4, 6, 8] := by
  obtain ⟨m, h1, h2, _⟩ :=
    discrete_values_snap_correct (fun _ _ => (1 : ℚ)) none [2, 4, 6, 8] (by decide) 4 (13/10)
  exact ⟨m, h1, h2⟩

/-! ### Claim C5: extraction coordination -/

/-- C5: JSON-LD runs first and its candidate is accepted irrespective of the
microdata content; when JSON-LD yields nothing, the microdata candidate is
kept exactly when it is non-empty (truthy name or at least one
ingredient); when neither yields a candidate the result is the explicit
not-found value; and the coordinator always returns one of the three
outcome values (it never throws). -/
theorem extractRecipe_coordination :
    (∀ (blocks : List (Option Json)) (micro : Option MicroElem) (r : Json),
      extractJsonLd blocks = some r →
        extractRecipe blocks micro = ScrapeOutcome.foundJsonLd r) ∧
    (∀ (blocks : List (Option Json)) (el : MicroElem), extractJsonLd blocks = none →
      extractRecipe blocks (some el) =
        (if microAccepted (buildMicrodata el) then
          ScrapeOutcome.foundMicrodata (buildMicrodata el)
        else ScrapeOutcome.notFound)) ∧
    (∀ m : MicroRecipe, microAccepted m = true ↔
      ((∃ s, (m.props.find? (fun f => f.1 = "name")).map (·.2) = some s ∧ s ≠ "") ∨
        m.recipeIngredient ≠ [])) ∧
    (∀ blocks : List (Option Json), extractJsonLd blocks = none →
      extractRecipe blocks none = ScrapeOutcome.notFound) ∧
    (∀ (blocks : List (Option Json)) (micro : Option MicroElem),
      extractRecipe blocks micro = ScrapeOutcome.notFound ∨
      (∃ r, extractRecipe blocks micro = ScrapeOutcome.foundJsonLd r) ∨
      ∃ m, extractRecipe blocks micro = ScrapeOutcome.foundMicrodata m) := by
  refine ⟨?_, ?_, ?_, ?_, ?_⟩
  · intro blocks micro r h
    simp [extractRecipe, h]
  · intro blocks el h
    simp [extractRecipe, h]
  · intro m
    unfold microAccepted
    rcases hfind : (m.props.find? (fun f => f.1 = "name")).map (·.2) with _ | s
    · simp only [hfind, Bool.false_or]
      rcases hi : m.recipeIngredient with _ | ⟨a, l⟩ <;> simp [hi]
    · rcases hi : m.recipeIngredient with _ | ⟨a, l⟩ <;>
        by_cases hs : s = "" <;> simp [hfind, hi, hs]
  · intro blocks h
    simp [extractRecipe, h]
  · intro blocks micro
    rcases hjl : extractJsonLd blocks with _ | r
    · rcases micro with _ | el
      · left; simp [extractRecipe, hjl]
      · by_cases hac : microAccepted (buildMicrodata el)
        · right; right; exact ⟨buildMicrodata el, by simp [extractRecipe, hjl, hac]⟩
        · left; simp [extractRecipe, hjl, hac]
    · right; left; exact ⟨r, by simp [extractRecipe, hjl]⟩

/-- C5 witness: with one Recipe-typed JSON-LD block and no microdata
element, the coordinator yields that block's candidate. -/
theorem extractRecipe_coordination_witness :
    extractRecipe [some (Json.obj [("@type", Json.str "Recipe")])] none =
      ScrapeOutcome.foundJsonLd (Json.obj [("@type", Json.str "Recipe")]) :=
  extractRecipe_coordination.1 [some (Json.obj [("@type", Json.str "Recipe")])] none
    (Json.obj [("@type", Json.str "Recipe")]) (by with_unfolding_all rfl)

/-! ### Claim C6: JSON-LD scanning -/

/-- C6 (amended): blocks failing the JSON parse are skipped and scanning
continues; a block whose processing throws (a `null` array entry) is
likewise skipped whole; within an array payload the first Recipe-typed
element is accepted and scanning stops, provided every earlier entry
passes the type test without throwing (in particular a `BreadcrumbList`
entry is ignored but a JSON `null` aborts the block); a single-object
payload passing the type test is accepted directly. -/
theorem jsonld_scan_correct :
    (∀ rest, extractJsonLd (none :: rest) = extractJsonLd rest) ∧
    (∀ data rest, scanBlock data = Except.error () →
      extractJsonLd (some data :: rest) = extractJsonLd rest) ∧
    (∀ data rest, scanBlock data = Except.ok none →
      extractJsonLd (some data :: rest) = extractJsonLd rest) ∧
    (∀ (pre : List Json) (r : Json) (post : List Json),
      (∀ x ∈ pre, isRecipeTyped x = Except.ok false) → isRecipeTyped r = Except.ok true →
      findRecipeInList (pre ++ r :: post) = Except.ok (some r)) ∧
    (∀ items r rest, findRecipeInList items = Except.ok (some r) →
      extractJsonLd (some (Json.arr items) :: rest) = some r) ∧
    (∀ fields rest, isRecipeTyped (Json.obj fields) = Except.ok true →
      extractJsonLd (some (Json.obj fields) :: rest) = some (Json.obj fields)) ∧
    extractJsonLd
      [some (Json.arr [Json.obj [("@type", Json.str "BreadcrumbList")],
        Json.obj [("@type", Json.str "Recipe"), ("name", Json.str "Chocolate Chip Cookies")]])]
      = some (Json.obj [("@type", Json.str "Recipe"), ("name", Json.str "Chocolate Chip Cookies")]) := by
  refine ⟨fun rest => rfl, ?_, ?_, ?_, ?_, ?_, by with_unfolding_all rfl⟩
  · intro data rest h
    simp [extractJsonLd, h]
  · intro data rest h
    simp [extractJsonLd, h]
  · intro pre r post
    induction pre with
    | nil =>
        intro _ hr
        simp only [List.nil_append, findRecipeInList, hr]
        rfl
    | cons x pre' ih =>
        intro hpre hr
        have hx : isRecipeTyped x = Except.ok false := hpre x (List.mem_cons_self x pre')
        have hrec := ih (fun y hy => hpre y (List.mem_cons_of_mem x hy)) hr
        rw [List.cons_append]
        simp only [findRecipeInList, hx]
        exact hrec
  · intro items r rest h
    have hs : scanBlock (Json.arr items) = Except.ok (some r) := h
    simp [extractJsonLd, hs]
  · intro fields rest h
    have hs : scanBlock (Json.obj fields) = Except.ok (some (Json.obj fields)) := by
      simp [scanBlock, h, Except.bind]
    simp [extractJsonLd, hs]

/-- C6 counterexample: an array payload whose first entry is JSON `null`
followed by a Recipe-typed element yields nothing — the thrown property
access skips the entire block, so the Recipe element is not accepted. -/
theorem jsonld_scan_claim_counterexample :
    extractJsonLd [some (Json.arr [Json.null, Json.obj [("@type", Json.str "Recipe")]])] = none ∧
    isRecipeTyped (Json.obj [("@type", Json.str "Recipe")]) = Except.ok true :=
  ⟨by with_unfolding_all rfl, by with_unfolding_all rfl⟩

/-- C6 witness: the single-object clause applied to a Recipe-typed object
block. -/
theorem jsonld_scan_correct_witness :
    extractJsonLd [some (Json.obj [("@type", Json.str "Recipe")])] =
      some (Json.obj [("@type", Json.str "Recipe")]) :=
  jsonld_scan_correct.2.2.2.2.2.1 [("@type", Json.str "Recipe")] []
    (by with_unfolding_all rfl)

/-! ### Claim C7: tag sanitization -/

/-- C7: a tag survives sanitization exactly when its normalized form is
neither in the derived ingredient-token set nor at most two characters
long; when no tag survives the result is the absence of tags (`none`) and
not an empty sequence; and the spec's example sanitizes
`["chicken","dinner","easy"]` against `["2 lbs chicken breast"]` to
`["dinner","easy"]`. -/
theorem sanitizeTags_correct :
    (∀ (tags : List String) (ings : List IngEntry) (kept : List String) (tag : String),
      sanitizeTags tags ings = some kept → tag ∈ kept →
        tag ∈ tags ∧ normTag tag ∉ deriveIngredientNames ings ∧ (normTag tag).length > 2) ∧
    (∀ (tags : List String) (ings : List IngEntry) (tag : String),
      tag ∈ tags → normTag tag ∉ deriveIngredientNames ings → (normTag tag).length > 2 →
        ∃ kept, sanitizeTags tags ings = some kept ∧ tag ∈ kept) ∧
    (∀ (tags : List String) (ings : List IngEntry),
      (∀ tag ∈ tags, normTag tag ∈ deriveIngredientNames ings ∨ (normTag tag).length ≤ 2) →
        sanitizeTags tags ings = none) ∧
    sanitizeTags ["chicken", "dinner", "easy"] [IngEntry.plain "2 lbs chicken breast"] =
      some ["dinner", "easy"] := by
  refine ⟨?_, ?_, ?_, by with_unfolding_all decide⟩
  · intro tags ings kept tag hsan htag
    simp only [sanitizeTags] at hsan
    split at hsan
    · exact absurd hsan (by simp)
    · rw [Option.some.injEq] at hsan
      subst hsan
      have hmem := List.mem_filter.1 htag
      refine ⟨hmem.1, ?_, ?_⟩
      · have := hmem.2
        simp only [Bool.and_eq_true, Bool.not_eq_true', decide_eq_false_iff_not,
          decide_eq_true_eq] at this
        exact this.1
      · have := hmem.2
        simp only [Bool.and_eq_true, decide_eq_true_eq] at this
        exact this.2
  · intro tags ings tag htag hnot hlen
    have hin : tag ∈ tags.filter (fun tag =>
        !decide (normTag tag ∈ deriveIngredientNames ings) &&
          decide ((normTag tag).length > 2)) :=
      List.mem_filter.2 ⟨htag, by simp [hnot, hlen]⟩
    have hne : ¬ ((tags.filter (fun tag =>
        !decide (normTag tag ∈ deriveIngredientNames ings) &&
          decide ((normTag tag).length > 2))).isEmpty = true) := by
      simp only [List.isEmpty_iff]
      exact List.ne_nil_of_mem hin
    exact ⟨_, by simp only [sanitizeTags]; rw [if_neg hne], hin⟩
  · intro tags ings hall
    simp only [sanitizeTags]
    rw [if_pos]
    simp only [List.isEmpty_iff]
    rw [List.filter_eq_nil_iff]
    intro tag htag
    rcases hall tag htag with h | h <;> simp [h]

/-- C7 witness: the keep-clause applied to the tag `"dinner"` against the
spec-example ingredient list. -/
theorem sanitizeTags_correct_witness :
    ∃ kept, sanitizeTags ["dinner"] [IngEntry.plain "2 lbs chicken breast"] = some kept ∧
      "dinner" ∈ kept :=
  sanitizeTags_correct.2.1 ["dinner"] [IngEntry.plain "2 lbs chicken breast"] "dinner"
    (by decide) (by with_unfolding_all decide) (by decide)

/-! ### Claim C8: import validation -/

/-- C8 (amended): `importRecipe` rejects exactly the recipes whose name is
absent or empty or whose ingredients field is absent; an ingredients field
that is present is enough — in particular the empty ingredient list is
accepted — and the accepted recipe is handed on with its tags sanitized. -/
theorem importRecipe_validation_correct :
    (∀ r : ImportRecipe,
      importRecipe r = Except.error "Invalid recipe: missing name or ingredients" ↔
        (r.name = none ∨ r.name = some "" ∨ r.ingredients = none)) ∧
    (∀ (name : String) (ings : List IngEntry) (tags : Option (List String)), name ≠ "" →
      importRecipe { name := some name, ingredients := some ings, tags := tags } =
        Except.ok { name := some name, ingredients := some ings,
                    tags := (match tags with
                             | some ts => sanitizeTags ts ings
                             | none => none) }) := by
  constructor
  · intro r
    rcases r with ⟨n, i, t⟩
    rcases n with _ | s
    · simp [importRecipe, importValidationOk]
    · by_cases hs : s = ""
      · subst hs
        simp [importRecipe, importValidationOk]
      · rcases i with _ | l
        · simp [importRecipe, importValidationOk, hs]
        · simp [importRecipe, importValidationOk, hs]
  · intro name ings tags hname
    have hv : importValidationOk
        { name := some name, ingredients := some ings, tags := tags } = true := by
      simp [importValidationOk, hname]
    cases tags with
    | none => simp [importRecipe, hv]
    | some ts => simp [importRecipe, hv]

/-- C8 counterexample: a recipe with a name and an empty ingredient array is
accepted by `importRecipe` (an empty array is truthy), not rejected. -/
theorem importRecipe_claim_counterexample :
    importRecipe { name := some "Cake", ingredients := some [], tags := none } =
      Except.ok { name := some "Cake", ingredients := some [], tags := none } := by
  with_unfolding_all rfl

/-- C8 witness: acceptance of a recipe with a name and one ingredient. -/
theorem importRecipe_validation_witness :
    importRecipe { name := some "Soup",
                   ingredients := some [IngEntry.plain "1 carrot"], tags := none } =
      Except.ok { name := some "Soup",
                  ingredients := some [IngEntry.plain "1 carrot"], tags := none } :=
  importRecipe_validation_correct.2 "Soup" [IngEntry.plain "1 carrot"] none (by decide)

/-! ### Claim C10: the ⅓ and ⅔ table entries are unreachable -/

lemma digitChar_lt_128 (n : ℕ) : (Nat.digitChar n).toNat < 128 := by
  unfold Nat.digitChar
  by_cases h0 : n = 0
  · rw [if_pos h0]; decide
  rw [if_neg h0]
  by_cases h1 : n = 1
  · rw [if_pos h1]; decide
  rw [if_neg h1]
  by_cases h2 : n = 2
  · rw [if_pos h2]; decide
  rw [if_neg h2]
  by_cases h3 : n = 3
  · rw [if_pos h3]; decide
  rw [if_neg h3]
  by_cases h4 : n = 4
  · rw [if_pos h4]; decide
  rw [if_neg h4]
  by_cases h5 : n = 5
  · rw [if_pos h5]; decide
  rw [if_neg h5]
  by_cases h6 : n = 6
  · rw [if_pos h6]; decide
  rw [if_neg h6]
  by_cases h7 : n = 7
  · rw [if_pos h7]; decide
  rw [if_neg h7]
  by_cases h8 : n = 8
  · rw [if_pos h8]; decide
  rw [if_neg h8]
  by_cases h9 : n = 9
  · rw [if_pos h9]; decide
  rw [if_neg h9]
  by_cases h10 : n = 10
  · rw [if_pos h10]; decide
  rw [if_neg h10]
  by_cases h11 : n = 11
  · rw [if_pos h11]; decide
  rw [if_neg h11]
  by_cases h12 : n = 12
  · rw [if_pos h12]; decide
  rw [if_neg h12]
  by_cases h13 : n = 13
  · rw [if_pos h13]; decide
  rw [if_neg h13]
  by_cases h14 : n = 14
  · rw [if_pos h14]; decide
  rw [if_neg h14]
  by_cases h15 : n = 15
  · rw [if_pos h15]; decide
  rw [if_neg h15]
  decide

lemma toDigitsCore_chars (b : ℕ) :
    ∀ (fuel n : ℕ) (ds : List Char), ∀ c ∈ Nat.toDigitsCore b fuel n ds,
      c ∈ ds ∨ c.toNat < 128 := by
  intro fuel
  induction fuel with
  | zero => intro n ds c hc; exact Or.inl hc
  | succ fuel ih =>
      intro n ds c hc
      simp only [Nat.toDigitsCore] at hc
      split at hc
      · rcases List.mem_cons.1 hc with rfl | h
        · exact Or.inr (digitChar_lt_128 _)
        · exact Or.inl h
      · rcases ih (n / b) (Nat.digitChar (n % b) :: ds) c hc with h | h
        · rcases List.mem_cons.1 h with rfl | h2
          · exact Or.inr (digitChar_lt_128 _)
          · exact Or.inl h2
        · exact Or.inr h

lemma natRepr_chars (n : ℕ) (c : Char) (hc : c ∈ (Nat.repr n).data) : c.toNat < 128 := by
  have hc' : c ∈ Nat.toDigitsCore 10 (n + 1) n [] := hc
  rcases toDigitsCore_chars 10 (n + 1) n [] c hc' with h | h
  · exact absurd h (List.not_mem_nil c)
  · exact h

lemma intToString_chars (z : ℤ) (c : Char) (hc : c ∈ (toString z).data) : c.toNat < 128 := by
  cases z with
  | ofNat m => exact natRepr_chars m c hc
  | negSucc m =>
      have hc' : c ∈ ("-" ++ Nat.repr (m + 1)).data := hc
      rw [String.data_append] at hc'
      rcases List.mem_append.1 hc' with h | h
      · have hd : c = '-' := List.mem_singleton.1 h
        subst hd; decide
      · exact natRepr_chars _ c h

lemma not_mem_int_toString (z : ℤ) (c : Char) (hc : 128 ≤ c.toNat) :
    c ∉ (toString z).data :=
  fun h => absurd (intToString_chars z c h) (by omega)

lemma not_mem_glyph_branch (w : ℤ) (g : String) (c : Char) (hc : 128 ≤ c.toNat)
    (hg : c ∉ g.data) : c ∉ (if w = 0 then g else toString w ++ " " ++ g).data := by
  split
  · exact hg
  · intro hmem
    rw [String.data_append, String.data_append] at hmem
    rcases List.mem_append.1 hmem with h | h
    · rcases List.mem_append.1 h with h2 | h2
      · exact absurd (intToString_chars w c h2) (by omega)
      · have hd : c = ' ' := List.mem_singleton.1 h2
        subst hd
        exact absurd hc (by decide)
    · exact hg h

lemma floor_intCast_div_eight (m : ℤ) : ⌊(m : ℚ) / 8⌋ = m / 8 := by
  have h := Rat.floor_intCast_div_natCast m 8
  have h8 : ((8 : ℕ) : ℚ) = (8 : ℚ) := by norm_num
  rw [h8] at h
  simpa using h

lemma frac_eq_emod (m : ℤ) :
    (m : ℚ) / 8 - (⌊(m : ℚ) / 8⌋ : ℚ) = ((m % 8 : ℤ) : ℚ) / 8 := by
  rw [floor_intCast_div_eight]
  have hd : (m % 8 : ℤ) = m - 8 * (m / 8) := Int.emod_def m 8
  rw [hd]
  push_cast
  ring

set_option maxHeartbeats 1000000 in
set_option maxRecDepth 4000 in
/-- Characters outside ASCII that differ from the seven reachable glyph
characters never occur in `formatAmount`'s output. -/
lemma formatAmount_no_glyph_char (c : Char) (hc : 128 ≤ c.toNat)
    (hg : c ∉ ['⅛', '¼', '⅜', '½', '⅝', '¾', '⅞']) (q : ℚ) :
    c ∉ (formatAmount q none).data := by
  obtain ⟨k, hk0, hk8, hfrac⟩ :
      ∃ k : ℤ, 0 ≤ k ∧ k < 8 ∧
        ((jsRound (q * 8) : ℚ) / 8 - (⌊(jsRound (q * 8) : ℚ) / 8⌋ : ℚ)
          = ((k : ℤ) : ℚ) / 8) :=
    ⟨jsRound (q * 8) % 8, Int.emod_nonneg _ (by norm_num),
      Int.emod_lt_of_pos _ (by norm_num), frac_eq_emod (jsRound (q * 8))⟩
  unfold formatAmount
  interval_cases k
  · have hfrac2 : ((jsRound (q * 8) : ℚ) / 8 - (⌊(jsRound (q * 8) : ℚ) / 8⌋ : ℚ)
        = (0 : ℚ)) := by
      rw [hfrac]; norm_num
    simp only [hfrac2]
    have hfind : fractionGlyphs.find?
        (fun p => |(0 : ℚ) - p.1| < 2/100) = none := by
      with_unfolding_all rfl
    simp only [hfind]
    rw [if_pos (sub_eq_zero.1 hfrac2)]
    exact not_mem_int_toString _ _ hc
  · have hfrac2 : ((jsRound (q * 8) : ℚ) / 8 - (⌊(jsRound (q * 8) : ℚ) / 8⌋ : ℚ)
        = (1 : ℚ) / 8) := by
      rw [hfrac]; norm_num
    simp only [hfrac2]
    have hfind : fractionGlyphs.find?
        (fun p => |(1 : ℚ) / 8 - p.1| < 2/100) = some (1/8, "⅛") := by
      with_unfolding_all rfl
    simp only [hfind]
    refine not_mem_glyph_branch _ _ _ hc ?_
    intro h
    have hce : c = '⅛' := List.mem_singleton.1 h
    subst hce
    exact hg (by decide)
  · have hfrac2 : ((jsRound (q * 8) : ℚ) / 8 - (⌊(jsRound (q * 8) : ℚ) / 8⌋ : ℚ)
        = (2 : ℚ) / 8) := by
      rw [hfrac]; norm_num
    simp only [hfrac2]
    have hfind : fractionGlyphs.find?
        (fun p => |(2 : ℚ) / 8 - p.1| < 2/100) = some (1/4, "¼") := by
      with_unfolding_all rfl
    simp only [hfind]
    refine not_mem_glyph_branch _ _ _ hc ?_
    intro h
    have hce : c = '¼' := List.mem_singleton.1 h
    subst hce
    exact hg (by decide)
  · have hfrac2 : ((jsRound (q * 8) : ℚ) / 8 - (⌊(jsRound (q * 8) : ℚ) / 8⌋ : ℚ)
        = (3 : ℚ) / 8) := by
      rw [hfrac]; norm_num
    simp only [hfrac2]
    have hfind : fractionGlyphs.find?
        (fun p => |(3 : ℚ) / 8 - p.1| < 2/100) = some (3/8, "⅜") := by
      with_unfolding_all rfl
    simp only [hfind]
    refine not_mem_glyph_branch _ _ _ hc ?_
    intro h
    have hce : c = '⅜' := List.mem_singleton.1 h
    subst hce
    exact hg (by decide)
  · have hfrac2 : ((jsRound (q * 8) : ℚ) / 8 - (⌊(jsRound (q * 8) : ℚ) / 8⌋ : ℚ)
        = (4 : ℚ) / 8) := by
      rw [hfrac]; norm_num
    simp only [hfrac2]
    have hfind : fractionGlyphs.find?
        (fun p => |(4 : ℚ) / 8 - p.1| < 2/100) = some (1/2, "½") := by
      with_unfolding_all rfl
    simp only [hfind]
    refine not_mem_glyph_branch _ _ _ hc ?_
    intro h
    have hce : c = '½' := List.mem_singleton.1 h
    subst hce
    exact hg (by decide)
  · have hfrac2 : ((jsRound (q * 8) : ℚ) / 8 - (⌊(jsRound (q * 8) : ℚ) / 8⌋ : ℚ)
        = (5 : ℚ) / 8) := by
      rw [hfrac]; norm_num
    simp only [hfrac2]
    have hfind : fractionGlyphs.find?
        (fun p => |(5 : ℚ) / 8 - p.1| < 2/100) = some (5/8, "⅝") := by
      with_unfolding_all rfl
    simp only [hfind]
    refine not_mem_glyph_branch _ _ _ hc ?_
    intro h
    have hce : c = '⅝' := List.mem_singleton.1 h
    subst hce
    exact hg (by decide)
  · have hfrac2 : ((jsRound (q * 8) : ℚ) / 8 - (⌊(jsRound (q * 8) : ℚ) / 8⌋ : ℚ)
        = (6 : ℚ) / 8) := by
      rw [hfrac]; norm_num
    simp only [hfrac2]
    have hfind : fractionGlyphs.find?
        (fun p => |(6 : ℚ) / 8 - p.1| < 2/100) = some (3/4, "¾") := by
      with_unfolding_all rfl
    simp only [hfind]
    refine not_mem_glyph_branch _ _ _ hc ?_
    intro h
    have hce : c = '¾' := List.mem_singleton.1 h
    subst hce
    exact hg (by decide)
  · have hfrac2 : ((jsRound (q * 8) : ℚ) / 8 - (⌊(jsRound (q * 8) : ℚ) / 8⌋ : ℚ)
        = (7 : ℚ) / 8) := by
      rw [hfrac]; norm_num
    simp only [hfrac2]
    have hfind : fractionGlyphs.find?
        (fun p => |(7 : ℚ) / 8 - p.1| < 2/100) = some (7/8, "⅞") := by
      with_unfolding_all rfl
    simp only [hfind]
    refine not_mem_glyph_branch _ _ _ hc ?_
    intro h
    have hce : c = '⅞' := List.mem_singleton.1 h
    subst hce
    exact hg (by decide)

/-- C10: the amount is first rounded to an exact multiple of `1/8`, no such
multiple lies within `0.02` of the `0.333` or `0.667` table keys, and hence
the output string never contains the `⅓` or `⅔` glyph — those two entries
of the fraction table are unreachable. -/
theorem formatAmount_thirds_unreachable :
    (∀ n : ℤ, ¬(|(n : ℚ) / 8 - 333/1000| < 2/100) ∧ ¬(|(n : ℚ) / 8 - 667/1000| < 2/100)) ∧
    (∀ q : ℚ, '⅓' ∉ (formatAmount q none).data ∧ '⅔' ∉ (formatAmount q none).data) := by
  constructor
  · intro n
    constructor
    · intro h
      rcases abs_lt.1 h with ⟨h1, h2⟩
      have hn1 : (2 : ℤ) < n := by
        have : (2 : ℚ) < (n : ℚ) := by linarith
        exact_mod_cast this
      have hn2 : n < 3 := by
        have : (n : ℚ) < 3 := by linarith
        exact_mod_cast this
      omega
    · intro h
      rcases abs_lt.1 h with ⟨h1, h2⟩
      have hn1 : (5 : ℤ) < n := by
        have : (5 : ℚ) < (n : ℚ) := by linarith
        exact_mod_cast this
      have hn2 : n < 6 := by
        have : (n : ℚ) < 6 := by linarith
        exact_mod_cast this
      omega
  · intro q
    exact ⟨formatAmount_no_glyph_char '⅓' (by decide) (by decide) q,
      formatAmount_no_glyph_char '⅔' (by decide) (by decide) q⟩

/-- C10 witness: the unreachability theorem applied at the amount `1/3`
itself. -/
theorem formatAmount_thirds_unreachable_witness :
    '⅓' ∉ (formatAmount (1/3) none).data :=
  (formatAmount_thirds_unreachable.2 (1/3)).1

end Soustack
